import Mathlib

/-!
Verification of the Intel-Parallel-STL-Tests benchmark harness.

The two C++ translation units (IntelParSTL.cpp and IntelCompilerTests.cpp) are
shallowly embedded below.  C++ doubles and floats are modelled as exact
rationals; the external libm functions std::sqrt, std::sin, std::cos are taken
as parameters, since the claims about this repository are structural (which
function is applied where) and never depend on analytic facts about them.
Stateful code (the timing loop, the buffers captured by reference in the
measured lambdas) is embedded by explicit state passing.  Wall-clock durations
are external inputs of the model: the timing loop is parametrised by the list
of elapsed durations its five clocked sections observe.
-/

namespace IntelParSTL

/-- The C++ execution policy tags used by the repository:
pstl/std execution seq, unseq, par and par_unseq. -/
inductive ExecutionPolicy
  | seq
  | unseq
  | par
  | par_unseq

/-- A scheduler-chosen partition of a buffer into consecutive chunks: chunk
sizes are drawn from sizes, and whatever remains forms one final chunk.  This
models the work partitioning that a parallel execution policy may apply; the
sizes list is the nondeterministic choice of the external scheduler. -/
def partitionBySizes {α : Type} : List Nat → List α → List (List α)
  | [], l => [l]
  | s :: ss, l => l.take s :: partitionBySizes ss (l.drop s)

/-- Sequential std::transform over one range: visit the elements in order and
write f of each into the output slot of the same index. -/
def transformSeq {α β : Type} (f : α → β) : List α → List β
  | [] => []
  | x :: xs => f x :: transformSeq f xs

/-- Parallel std::transform: the scheduler splits the range into chunks, each
chunk is transformed sequentially, and the chunk outputs land in the output
buffer in range order. -/
def transformPar {α β : Type} (f : α → β) (sizes : List Nat) (l : List α) : List β :=
  ((partitionBySizes sizes l).map (transformSeq f)).flatten

/-- std::transform under an execution policy.  The sizes argument is the
chunking chosen by the external scheduler; sequential policies ignore it. -/
def stdTransform {α β : Type} (pol : ExecutionPolicy) (sizes : List Nat)
    (f : α → β) (l : List α) : List β :=
  match pol with
  | .seq => transformSeq f l
  | .unseq => transformSeq f l
  | .par => transformPar f sizes l
  | .par_unseq => transformPar f sizes l

/-- The per-element lambda of the trigonometric transform in TestTrig and
BM_Trigonometry: v maps to std::sqrt of std::sin v times std::cos v.  The
libm functions are parameters of the model. -/
def trigFun (sqrtD sinD cosD : ℚ → ℚ) (v : ℚ) : ℚ :=
  sqrtD (sinD v * cosD v)

/-- The transform performed by each measured lambda of TestTrig and by each
iteration of BM_Trigonometry: std::transform of the input buffer into the
output buffer with the trigonometric lambda, under the given policy. -/
def TestTrigTransform (sqrtD sinD cosD : ℚ → ℚ) (pol : ExecutionPolicy)
    (sizes : List Nat) (vec : List ℚ) : List ℚ :=
  stdTransform pol sizes (trigFun sqrtD sinD cosD) vec

/-- The combine step of std::transform_reduce with std::plus and
std::multiplies: accumulate acc plus the product of the paired elements. -/
def dotStep (acc : ℚ) (p : ℚ × ℚ) : ℚ := acc + p.1 * p.2

/-- Sequential std::transform_reduce over two ranges: left fold of the
multiply-accumulate step over the paired elements, from the given initial
value (0.0 at every call site of the repository). -/
def transformReduceSeq (v1 v2 : List ℚ) (init : ℚ) : ℚ :=
  (v1.zip v2).foldl dotStep init

/-- Parallel std::transform_reduce: each scheduler chunk is reduced
sequentially from 0, and the chunk results are combined onto the initial
value in chunk order. -/
def transformReducePar (sizes : List Nat) (v1 v2 : List ℚ) (init : ℚ) : ℚ :=
  ((partitionBySizes sizes (v1.zip v2)).map (fun c => c.foldl dotStep 0)).foldl (· + ·) init

/-- The dot product of TestDotProduct and BM_DotProduct:
std::transform_reduce with seed 0.0, std::plus and std::multiplies, under the
given execution policy. -/
def transformReduce (pol : ExecutionPolicy) (sizes : List Nat) (v1 v2 : List ℚ) : ℚ :=
  match pol with
  | .seq => transformReduceSeq v1 v2 0
  | .unseq => transformReduceSeq v1 v2 0
  | .par => transformReducePar sizes v1 v2 0
  | .par_unseq => transformReducePar sizes v1 v2 0

/-- glm::vec4: a point with four float components. -/
structure Vec4 where
  x : ℚ
  y : ℚ
  z : ℚ
  w : ℚ

/-- The comparator lambda passed to std::sort in BM_SortPoints: compare two
points by the first coordinate only. -/
def cmpPoints (a b : Vec4) : Bool := decide (a.x < b.x)

/-- The non-strict order induced by the comparator: the postcondition of
std::sort with a strict weak ordering comp is that comp (successor,
predecessor) is false for consecutive output elements. -/
def ptLe (a b : Vec4) : Bool := !cmpPoints b a

/-- std::sort of BM_SortPoints, modelled as a merge sort under the order
induced by the comparator (std::sort guarantees a comparator-sorted
permutation; the concrete algorithm is the external library). -/
def sortPoints (points : List Vec4) : List Vec4 := points.mergeSort ptLe

/-- The pricing lambda of the second pass of BM_CountingIter, reading the
three buffers at index i: prices at i times (1 minus discounts at i), times
quantities at i.  Buffer reads are modelled with getD; the lambda is only
ever applied to indices below the common buffer length in the source.
quantities is the unsigned int buffer. -/
def profitAt (prices discounts : List ℚ) (quantities : List Nat) (i : Nat) : ℚ :=
  (prices.getD i 0 * (1 - discounts.getD i 0)) * (quantities.getD i 0 : ℚ)

/-- The second pass of BM_CountingIter: std::transform over the counting
iterator range from 0 to n, writing the pricing lambda of each index into the
profit buffer, under the given execution policy. -/
def BM_CountingIterProfit (pol : ExecutionPolicy) (sizes : List Nat)
    (prices discounts : List ℚ) (quantities : List Nat) (n : Nat) : List ℚ :=
  stdTransform pol sizes (profitAt prices discounts quantities) (List.range n)

/-- Modelled semantics of std::uniform_real_distribution over lower and
upper (external standard library collaborator): a unit draw u of the engine,
with 0 ≤ u < 1, is mapped affinely onto the requested range. -/
def uniformRealAt (lower upper u : ℚ) : ℚ := lower + u * (upper - lower)

/-- GenRandomFloat: one call of the uniform real distribution on the
thread-local engine; the draw of the engine is abstracted as the unit
parameter u. -/
def GenRandomFloat (lower upper : ℚ) (u : ℚ) : ℚ := uniformRealAt lower upper u

/-- Modelled semantics of std::uniform_int_distribution over the closed range
from lower to upper (external standard library collaborator): a raw engine
draw reduced modulo the width of the range, offset from lower. -/
def uniformIntAt (lower upper : ℤ) (r : Nat) : ℤ := lower + (r : ℤ) % (upper - lower + 1)

/-- GenRandomInt: one call of the uniform int distribution on the
thread-local engine; the raw draw of the engine is abstracted as r. -/
def GenRandomInt (lower upper : ℤ) (r : Nat) : ℤ := uniformIntAt lower upper r

/-- RUN_TIMES of IntelParSTL.cpp: the number of timed repetitions. -/
def RUN_TIMES : Nat := 5

/-- Insertion into the model of std::set of double: a strictly sorted list of
rationals; inserting an element already present leaves the set unchanged. -/
def setInsert (x : ℚ) : List ℚ → List ℚ
  | [] => [x]
  | y :: ys => if x < y then x :: y :: ys else if x = y then y :: ys else y :: setInsert x ys

/-- One printed line of RunAndMeasure, field by field in print order: the
title, the first element of the set of times (the minimum), the last element
of the set of times (the maximum), and slot 0 of the results buffer. -/
structure MeasureLine (α : Type) where
  title : String
  minTime : ℚ
  maxTime : ℚ
  shown : α

/-- The measuring loop of RunAndMeasure: each iteration invokes func once
(threading the state captured by the lambda), stores its result in slot i of
the results buffer, and inserts the elapsed duration of the iteration into
the set of times.  The durations are external inputs of the model, drawn from
times by iteration index; fuel counts the remaining iterations. -/
def measureLoop {σ α : Type} (func : σ → α × σ) (times : List ℚ) :
    Nat → Nat → List α × List ℚ × σ → List α × List ℚ × σ
  | _, 0, acc => acc
  | i, fuel + 1, (results, ts, s) =>
    let r := func s
    measureLoop func times (i + 1) fuel (results.set i r.1, setInsert (times.getD i 0) ts, r.2)

/-- RunAndMeasure of IntelParSTL.cpp: one warm-up invocation of func whose
result initialises all RUN_TIMES slots of the results buffer and which is not
timed, then the measuring loop, then the printed line: title, minimum of the
set of times, maximum of the set of times, slot 0 of the results buffer. -/
def RunAndMeasure {σ α : Type} [Inhabited α] (title : String) (func : σ → α × σ)
    (times : List ℚ) (s0 : σ) : MeasureLine α × σ :=
  let w := func s0
  let fin := measureLoop func times 0 RUN_TIMES (List.replicate RUN_TIMES w.1, [], w.2)
  ({ title := title, minTime := fin.2.1.headD 0, maxTime := fin.2.1.getLastD 0,
     shown := fin.1.headD default }, fin.2.2)

/-- The n-fold invocation of a stateful computation, keeping only the state:
the state reached after calling func n times from s. -/
def iterateState {σ α : Type} (func : σ → α × σ) : Nat → σ → σ
  | 0, s => s
  | n + 1, s => iterateState func n (func s).2

/-- The set of times built by the measuring loop, written out: the five loop
durations inserted in iteration order. -/
def loopTimesSet (times : List ℚ) : List ℚ :=
  setInsert (times.getD 4 0) (setInsert (times.getD 3 0) (setInsert (times.getD 2 0)
    (setInsert (times.getD 1 0) (setInsert (times.getD 0 0) []))))

/-- The five elapsed durations the measuring loop collects, in iteration
order. -/
def collectedTimes (times : List ℚ) : List ℚ :=
  [times.getD 0 0, times.getD 1 0, times.getD 2 0, times.getD 3 0, times.getD 4 0]

/-- The buffers captured by reference by the measured lambdas of TestTrig:
the input vector vec and the output vector out. -/
structure TrigBuffers where
  vec : List ℚ
  out : List ℚ

/-- The measured lambda of TestTrig: transform vec into out under the chosen
execution policy and return element 0 of out (headD models the read of the
front element; the source only runs it on nonempty buffers). -/
def trigTrialFunc (sqrtD sinD cosD : ℚ → ℚ) (pol : ExecutionPolicy) (sizes : List Nat)
    (st : TrigBuffers) : ℚ × TrigBuffers :=
  let newOut := stdTransform pol sizes (trigFun sqrtD sinD cosD) st.vec
  (newOut.headD 0, { vec := st.vec, out := newOut })

/-- The buffers captured by reference by the measured lambdas of
TestDotProduct: the two input vectors, read through const iterators. -/
structure DotBuffers where
  v1 : List ℚ
  v2 : List ℚ

/-- The measured lambda of TestDotProduct: transform_reduce of the two
captured vectors under the chosen execution policy, returning the scalar and
writing no buffer. -/
def dotTrialFunc (pol : ExecutionPolicy) (sizes : List Nat) (st : DotBuffers) : ℚ × DotBuffers :=
  (transformReduce pol sizes st.v1 st.v2, st)

/-- The whitespace characters skipped by C atoi in the default locale. -/
def isSpaceChar (c : Char) : Bool :=
  c = ' ' || c = '\t' || c = '\n' || c = '\x0b' || c = '\x0c' || c = '\r'

/-- The digit-consuming loop of C atoi: accumulate leading decimal digits,
stop at the first non-digit. -/
def atoiLoop : List Char → Int → Int
  | [], acc => acc
  | c :: cs, acc =>
    if c.isDigit then atoiLoop cs (10 * acc + ((c.toNat - '0'.toNat : Nat) : Int)) else acc

/-- Modelled semantics of C atoi (external libc collaborator): skip leading
whitespace, accept one optional sign, consume leading digits; the result is 0
when no digits follow. -/
def atoi (s : String) : Int :=
  match s.data.dropWhile isSpaceChar with
  | '-' :: cs => - atoiLoop cs 0
  | '+' :: cs => atoiLoop cs 0
  | cs => atoiLoop cs 0

/-- The size_t conversion applied to the int returned by atoi when it
initialises vecSize (C++ integral conversion, modulo 2 to the 64). -/
def toSizeT (z : Int) : Nat := (z % (2 ^ 64 : Int)).toNat

/-- The observable outcome of main: the chosen buffer size, the chosen step,
which of the two tests ran, and the exit code. -/
structure MainTrace where
  vecSize : Nat
  step : Int
  ranTrig : Bool
  ranDot : Bool
  exitCode : Int

/-- main of IntelParSTL.cpp as a function of the user arguments (argv from
index 1 on, so argc greater than 1 means the list is nonempty): vecSize is
atoi of the first argument, defaulting to 6000000; step is atoi of the second
argument, defaulting to 0; TestTrig runs when step is 0 or 2, TestDotProduct
when step is 0 or 3; the return value is always 0. -/
def mainRun (args : List String) : MainTrace :=
  let vecSize : Nat := toSizeT (match args[0]? with | some a => atoi a | none => 6000000)
  let step : Int := match args[1]? with | some a => atoi a | none => 0
  { vecSize := vecSize, step := step,
    ranTrig := step == 0 || step == 2,
    ranDot := step == 0 || step == 3,
    exitCode := 0 }

/-- Joining the chunks of a scheduler partition recovers the buffer. -/
theorem partitionBySizes_flatten {α : Type} (sizes : List Nat) (l : List α) :
    (partitionBySizes sizes l).flatten = l := by
  induction sizes generalizing l with
  | nil => simp [partitionBySizes]
  | cons s ss ih => simp [partitionBySizes, ih]

/-- The sequential transform is the pointwise map. -/
theorem transformSeq_eq_map {α β : Type} (f : α → β) (l : List α) :
    transformSeq f l = l.map f := by
  induction l with
  | nil => rfl
  | cons x xs ih => simp [transformSeq, ih]

/-- The chunked parallel transform is the pointwise map, for every scheduler
chunking. -/
theorem transformPar_eq_map {α β : Type} (f : α → β) (sizes : List Nat) (l : List α) :
    transformPar f sizes l = l.map f := by
  unfold transformPar
  induction sizes generalizing l with
  | nil => simp [partitionBySizes, transformSeq_eq_map]
  | cons s ss ih =>
    simp only [partitionBySizes, List.map_cons, List.flatten_cons, transformSeq_eq_map, ih]
    rw [← List.map_append, List.take_append_drop]

/-- std::transform under every policy and every scheduler chunking is the
pointwise map. -/
theorem stdTransform_eq_map {α β : Type} (pol : ExecutionPolicy) (sizes : List Nat)
    (f : α → β) (l : List α) : stdTransform pol sizes f l = l.map f := by
  cases pol <;>
    simp [stdTransform, transformSeq_eq_map, transformPar_eq_map]

/-- C1: for every input buffer and every execution policy (and every
scheduler chunking), the trigonometric transform yields an output of the same
length as the input whose entry at each index i is sqrt (sin (input at i) *
cos (input at i)). -/
theorem trig_transform_pointwise (sqrtD sinD cosD : ℚ → ℚ) (pol : ExecutionPolicy)
    (sizes : List Nat) (input : List ℚ) :
    (TestTrigTransform sqrtD sinD cosD pol sizes input).length = input.length ∧
      ∀ i : Nat, (TestTrigTransform sqrtD sinD cosD pol sizes input)[i]? =
        (input[i]?).map (fun v => sqrtD (sinD v * cosD v)) := by
  constructor
  · simp [TestTrigTransform, stdTransform_eq_map]
  · intro i
    simp only [TestTrigTransform, stdTransform_eq_map, List.getElem?_map]
    rfl

/-- C3: the trigonometric transform under the parallel policy equals the one
under the sequential policy on the same input, whatever chunking the parallel
scheduler picks: the per-element function is the same regardless of policy. -/
theorem trig_transform_par_eq_seq (sqrtD sinD cosD : ℚ → ℚ) (sizes : List Nat)
    (input : List ℚ) :
    TestTrigTransform sqrtD sinD cosD .par sizes input
      = TestTrigTransform sqrtD sinD cosD .seq sizes input := by
  simp [TestTrigTransform, stdTransform_eq_map]

/-- C4: in the index-driven pricing computation with buffer size n, the
profit buffer holds, at every index i below n and under every execution
policy, prices at i times (1 minus discounts at i) times quantities at i. -/
theorem counting_iter_profit (pol : ExecutionPolicy) (sizes : List Nat)
    (prices discounts : List ℚ) (quantities : List Nat) (n i : Nat) (h : i < n) :
    (BM_CountingIterProfit pol sizes prices discounts quantities n)[i]? =
      some (prices.getD i 0 * (1 - discounts.getD i 0) * (quantities.getD i 0 : ℚ)) := by
  simp [BM_CountingIterProfit, stdTransform_eq_map, List.getElem?_range h, profitAt]

/-- Witness for C4 at a concrete input. -/
theorem counting_iter_profit_witness :
    (BM_CountingIterProfit .seq [] [2] [1/2] [3] 1)[0]? =
      some (([2] : List ℚ).getD 0 0 * (1 - ([1/2] : List ℚ).getD 0 0) *
        (([3] : List Nat).getD 0 0 : ℚ)) :=
  counting_iter_profit .seq [] [2] [1/2] [3] 1 0 (by decide)

/-- Membership in the ordered set after an insertion. -/
theorem setInsert_mem (x y : ℚ) (l : List ℚ) : y ∈ setInsert x l ↔ y = x ∨ y ∈ l := by
  induction l with
  | nil => simp [setInsert]
  | cons z zs ih =>
    by_cases h1 : x < z
    · simp [setInsert, h1]
    · by_cases h2 : x = z
      · simp only [setInsert]
        rw [if_neg h1, if_pos h2]
        subst h2
        simp only [List.mem_cons]
        tauto
      · simp only [setInsert, if_neg h1, if_neg h2, List.mem_cons, ih]
        tauto

/-- Insertion preserves the strict sortedness of the ordered set. -/
theorem setInsert_sorted (x : ℚ) (l : List ℚ) (h : l.Sorted (· < ·)) :
    (setInsert x l).Sorted (· < ·) := by
  induction l with
  | nil => simp [setInsert]
  | cons z zs ih =>
    rw [List.sorted_cons] at h
    by_cases h1 : x < z
    · simp only [setInsert, if_pos h1]
      rw [List.sorted_cons]
      constructor
      · intro b hb
        rcases List.mem_cons.mp hb with rfl | hb2
        · exact h1
        · exact lt_trans h1 (h.1 b hb2)
      · rw [List.sorted_cons]
        exact h
    · by_cases h2 : x = z
      · simp only [setInsert, if_neg h1, if_pos h2]
        rw [List.sorted_cons]
        exact h
      · have hz : z < x := by
          rcases lt_trichotomy x z with hlt | heq | hgt
          · exact absurd hlt h1
          · exact absurd heq h2
          · exact hgt
        simp only [setInsert, if_neg h1, if_neg h2]
        rw [List.sorted_cons]
        refine ⟨?_, ih h.2⟩
        intro b hb
        rcases (setInsert_mem x b zs).mp hb with rfl | hb2
        · exact hz
        · exact h.1 b hb2

/-- The ordered set is never empty after an insertion. -/
theorem setInsert_ne_nil (x : ℚ) (l : List ℚ) : setInsert x l ≠ [] := by
  cases l with
  | nil => simp [setInsert]
  | cons z zs =>
    by_cases h1 : x < z
    · simp [setInsert, h1]
    · by_cases h2 : x = z <;> simp [setInsert, h1, h2]

/-- The front element of a nonempty list is a member. -/
theorem headD_mem_of_ne_nil (l : List ℚ) (h : l ≠ []) : l.headD 0 ∈ l := by
  cases l with
  | nil => exact absurd rfl h
  | cons a t => simp

/-- The back element of a nonempty list is a member. -/
theorem getLastD_mem_of_ne_nil (l : List ℚ) (h : l ≠ []) : l.getLastD 0 ∈ l := by
  induction l with
  | nil => exact absurd rfl h
  | cons a t ih =>
    cases t with
    | nil => simp [List.getLastD_cons, List.getLastD_nil]
    | cons b t2 =>
      have h2 : (b :: t2 : List ℚ) ≠ [] := by simp
      have hrw : (a :: b :: t2).getLastD 0 = (b :: t2).getLastD 0 := by
        simp only [List.getLastD_cons]
      rw [hrw]
      exact List.mem_cons_of_mem a (ih h2)

/-- The front element of a strictly sorted list is a lower bound. -/
theorem sorted_headD_le (l : List ℚ) (h : l.Sorted (· < ·)) :
    ∀ y ∈ l, l.headD 0 ≤ y := by
  cases l with
  | nil => intro y hy; exact absurd hy (List.not_mem_nil y)
  | cons a t =>
    intro y hy
    rw [List.sorted_cons] at h
    rcases List.mem_cons.mp hy with rfl | hy2
    · simp
    · simp only [List.headD_cons]
      exact le_of_lt (h.1 y hy2)

/-- The back element of a strictly sorted list is an upper bound. -/
theorem sorted_le_getLastD (l : List ℚ) (h : l.Sorted (· < ·)) :
    ∀ y ∈ l, y ≤ l.getLastD 0 := by
  induction l with
  | nil => intro y hy; exact absurd hy (List.not_mem_nil y)
  | cons a t ih =>
    intro y hy
    rw [List.sorted_cons] at h
    cases t with
    | nil =>
      rcases List.mem_cons.mp hy with rfl | hy2
      · simp [List.getLastD_cons, List.getLastD_nil]
      · exact absurd hy2 (List.not_mem_nil y)
    | cons b t2 =>
      have hrw : (a :: b :: t2).getLastD 0 = (b :: t2).getLastD 0 := by
        simp only [List.getLastD_cons]
      rw [hrw]
      rcases List.mem_cons.mp hy with rfl | hy2
      · have hb : b ≤ (b :: t2).getLastD 0 := ih h.2 b (List.mem_cons_self b t2)
        have hab : y < b := h.1 b (List.mem_cons_self b t2)
        exact le_of_lt (lt_of_lt_of_le hab hb)
      · exact ih h.2 y hy2

/-- Reducing an empty buffer pair in chunks leaves the initial value. -/
theorem foldl_chunks_nil (sizes : List Nat) (init : ℚ) :
    ((partitionBySizes sizes ([] : List (ℚ × ℚ))).map
      (fun c => c.foldl dotStep 0)).foldl (· + ·) init = init := by
  induction sizes generalizing init with
  | nil => simp [partitionBySizes]
  | cons s ss ih =>
    simp only [partitionBySizes, List.take_nil, List.drop_nil, List.map_cons,
      List.foldl_cons, List.foldl_nil, add_zero]
    exact ih init

/-- C5: after the vector sort, every adjacent pair of the output is ordered
by the first coordinate, and the output is a permutation of the input. -/
theorem sort_points_correct (points : List Vec4) :
    (sortPoints points).Perm points ∧
      (sortPoints points).Chain' (fun a b => a.x ≤ b.x) := by
  constructor
  · exact List.mergeSort_perm points ptLe
  · have htrans : ∀ (a b c : Vec4), ptLe a b → ptLe b c → ptLe a c := by
      intro a b c hab hbc
      simp only [ptLe, cmpPoints, Bool.not_eq_true', decide_eq_false_iff_not, not_lt]
        at hab hbc ⊢
      exact le_trans hab hbc
    have htotal : ∀ (a b : Vec4), ptLe a b || ptLe b a := by
      intro a b
      simp only [ptLe, cmpPoints, Bool.or_eq_true, Bool.not_eq_true',
        decide_eq_false_iff_not, not_lt]
      exact le_total a.x b.x
    have hp : (sortPoints points).Pairwise (fun a b => ptLe a b) :=
      List.sorted_mergeSort htrans htotal points
    have hp2 : (sortPoints points).Pairwise (fun a b => a.x ≤ b.x) := by
      refine hp.imp ?_
      intro a b hab
      simpa [ptLe, cmpPoints, Bool.not_eq_true', decide_eq_false_iff_not, not_lt] using hab
    exact hp2.chain'

/-- C8: given lower ≤ upper, every call of the random float generator (any
engine unit draw u with 0 ≤ u < 1) and every call of the random int generator
(any raw engine draw r) returns a value between lower and upper inclusive. -/
theorem gen_random_in_range (lf uf u : ℚ) (li ui : ℤ) (r : Nat)
    (hf : lf ≤ uf) (hu0 : 0 ≤ u) (hu1 : u < 1) (hi : li ≤ ui) :
    (lf ≤ GenRandomFloat lf uf u ∧ GenRandomFloat lf uf u ≤ uf) ∧
      (li ≤ GenRandomInt li ui r ∧ GenRandomInt li ui r ≤ ui) := by
  refine ⟨⟨?_, ?_⟩, ?_, ?_⟩
  · have h1 : 0 ≤ u * (uf - lf) := mul_nonneg hu0 (sub_nonneg.mpr hf)
    simp only [GenRandomFloat, uniformRealAt]
    linarith
  · have h1 : u * (uf - lf) ≤ 1 * (uf - lf) :=
      mul_le_mul_of_nonneg_right (le_of_lt hu1) (sub_nonneg.mpr hf)
    simp only [GenRandomFloat, uniformRealAt]
    linarith
  · have h1 : 0 ≤ (r : ℤ) % (ui - li + 1) := Int.emod_nonneg _ (by omega)
    simp only [GenRandomInt, uniformIntAt]
    omega
  · have h1 : (r : ℤ) % (ui - li + 1) < ui - li + 1 := Int.emod_lt_of_pos _ (by omega)
    simp only [GenRandomInt, uniformIntAt]
    omega

/-- Witness for C8 at a concrete range and concrete engine draws. -/
theorem gen_random_in_range_witness :
    ((0 : ℚ) ≤ GenRandomFloat 0 1 (1/2) ∧ GenRandomFloat 0 1 (1/2) ≤ 1) ∧
      ((1 : ℤ) ≤ GenRandomInt 1 3 7 ∧ GenRandomInt 1 3 7 ≤ 3) :=
  gen_random_in_range 0 1 (1/2) 1 3 7 (by norm_num) (by norm_num) (by norm_num)
    (by norm_num)

/-- C9: with an empty input buffer, each of the four operations completes and
yields the empty output, the dot product yielding the seed value 0, under
every execution policy and every scheduler chunking. -/
theorem empty_buffer_safety (sqrtD sinD cosD : ℚ → ℚ) (pol : ExecutionPolicy)
    (sizes : List Nat) (prices discounts : List ℚ) (quantities : List Nat) :
    TestTrigTransform sqrtD sinD cosD pol sizes [] = [] ∧
      sortPoints [] = [] ∧
      transformReduce pol sizes [] [] = 0 ∧
      BM_CountingIterProfit pol sizes prices discounts quantities 0 = [] := by
  refine ⟨?_, ?_, ?_, ?_⟩
  · simp [TestTrigTransform, stdTransform_eq_map]
  · simp [sortPoints]
  · cases pol <;>
      simp [transformReduce, transformReduceSeq, transformReducePar, foldl_chunks_nil]
  · simp [BM_CountingIterProfit, stdTransform_eq_map]

/-- The state after RunAndMeasure is the six-fold iterate of the computation:
one warm-up invocation plus RUN_TIMES timed invocations. -/
theorem RunAndMeasure_state {σ α : Type} [Inhabited α] (title : String)
    (func : σ → α × σ) (times : List ℚ) (s0 : σ) :
    (RunAndMeasure title func times s0).2 = iterateState func 6 s0 := rfl

/-- The printed result field is the result of the invocation following the
warm-up: slot 0 of the results buffer after the loop. -/
theorem RunAndMeasure_shown {σ α : Type} [Inhabited α] (title : String)
    (func : σ → α × σ) (times : List ℚ) (s0 : σ) :
    (RunAndMeasure title func times s0).1.shown = (func ((func s0).2)).1 := rfl

/-- The printed minimum is the front of the set built from the five loop
durations. -/
theorem RunAndMeasure_minTime {σ α : Type} [Inhabited α] (title : String)
    (func : σ → α × σ) (times : List ℚ) (s0 : σ) :
    (RunAndMeasure title func times s0).1.minTime = (loopTimesSet times).headD 0 := rfl

/-- The printed maximum is the back of the set built from the five loop
durations. -/
theorem RunAndMeasure_maxTime {σ α : Type} [Inhabited α] (title : String)
    (func : σ → α × σ) (times : List ℚ) (s0 : σ) :
    (RunAndMeasure title func times s0).1.maxTime = (loopTimesSet times).getLastD 0 := rfl

/-- The set built by the loop is strictly sorted. -/
theorem loopTimesSet_sorted (times : List ℚ) : (loopTimesSet times).Sorted (· < ·) := by
  unfold loopTimesSet
  apply setInsert_sorted
  apply setInsert_sorted
  apply setInsert_sorted
  apply setInsert_sorted
  apply setInsert_sorted
  simp

/-- The set built by the loop is nonempty. -/
theorem loopTimesSet_ne_nil (times : List ℚ) : loopTimesSet times ≠ [] := by
  unfold loopTimesSet
  exact setInsert_ne_nil _ _

/-- The set built by the loop holds exactly the five collected durations. -/
theorem loopTimesSet_mem (times : List ℚ) (y : ℚ) :
    y ∈ loopTimesSet times ↔ y ∈ collectedTimes times := by
  simp only [loopTimesSet, collectedTimes, setInsert_mem, List.mem_cons, List.not_mem_nil]
  tauto

/-- C2 (amended): the line printed by the timed trial runner carries the
label, the minimum of the five collected elapsed times, the maximum of the
five collected elapsed times, and the result of the first timed invocation
(slot 0 of the results buffer), for every labeled computation. -/
theorem run_and_measure_line {σ α : Type} [Inhabited α] (title : String)
    (func : σ → α × σ) (times : List ℚ) (s0 : σ) :
    (RunAndMeasure title func times s0).1.title = title ∧
      (RunAndMeasure title func times s0).1.minTime ∈ collectedTimes times ∧
      (∀ t ∈ collectedTimes times, (RunAndMeasure title func times s0).1.minTime ≤ t) ∧
      (RunAndMeasure title func times s0).1.maxTime ∈ collectedTimes times ∧
      (∀ t ∈ collectedTimes times, t ≤ (RunAndMeasure title func times s0).1.maxTime) ∧
      (RunAndMeasure title func times s0).1.shown = (func ((func s0).2)).1 := by
  refine ⟨rfl, ?_, ?_, ?_, ?_, rfl⟩
  · rw [RunAndMeasure_minTime, ← loopTimesSet_mem]
    exact headD_mem_of_ne_nil _ (loopTimesSet_ne_nil times)
  · intro t ht
    rw [RunAndMeasure_minTime]
    exact sorted_headD_le _ (loopTimesSet_sorted times) t ((loopTimesSet_mem times t).mpr ht)
  · rw [RunAndMeasure_maxTime, ← loopTimesSet_mem]
    exact getLastD_mem_of_ne_nil _ (loopTimesSet_ne_nil times)
  · intro t ht
    rw [RunAndMeasure_maxTime]
    exact sorted_le_getLastD _ (loopTimesSet_sorted times) t ((loopTimesSet_mem times t).mpr ht)

/-- Witness for the amended C2 at a concrete computation and concrete
durations: the printed minimum is at most the first collected duration. -/
theorem run_and_measure_line_witness :
    (RunAndMeasure "t" (fun s : Nat => (s, s + 1)) [3, 1, 4, 1, 5] 0).1.minTime ≤ 3 :=
  (run_and_measure_line "t" (fun s : Nat => (s, s + 1)) [3, 1, 4, 1, 5] 0).2.2.1 3
    (by decide)

/-- C2 counterexample: for the computation returning its own invocation index
(the state is the invocation counter, the warm-up returns 0), the printed
result field is 1, the result of the first timed invocation, while the
last-computed result of the timed invocations is 5; so the printed line does
not contain the last-computed result. -/
theorem run_and_measure_not_last_result :
    (RunAndMeasure "t" (fun s : Nat => (s, s + 1)) [3, 1, 4, 1, 5] 0).1.shown = 1 ∧
      ((fun s : Nat => (s, s + 1)) (iterateState (fun s : Nat => (s, s + 1)) 5 0)).1 = 5 ∧
      (RunAndMeasure "t" (fun s : Nat => (s, s + 1)) [3, 1, 4, 1, 5] 0).1.shown ≠
        ((fun s : Nat => (s, s + 1)) (iterateState (fun s : Nat => (s, s + 1)) 5 0)).1 :=
  ⟨rfl, rfl, by decide⟩

/-- C7: the timed trial runner invokes the computation exactly six times (the
final state is the six-fold iterate), prints as its result field the result
of the invocation right after the warm-up (the warm-up result, overwritten in
every slot, never reaches the line), and takes its printed minimum and
maximum from the set of the five loop durations, to which the untimed
warm-up contributes nothing. -/
theorem run_and_measure_six_invocations {σ α : Type} [Inhabited α] (title : String)
    (func : σ → α × σ) (times : List ℚ) (s0 : σ) :
    (RunAndMeasure title func times s0).2 = iterateState func 6 s0 ∧
      (RunAndMeasure title func times s0).1.shown = (func (iterateState func 1 s0)).1 ∧
      (RunAndMeasure title func times s0).1.minTime = (loopTimesSet times).headD 0 ∧
      (RunAndMeasure title func times s0).1.maxTime = (loopTimesSet times).getLastD 0 :=
  ⟨rfl, rfl, rfl, rfl⟩

/-- Any number of invocations of the measured trigonometric lambda leaves the
input vector of the captured buffers unchanged. -/
theorem trig_iterate_vec {sqrtD sinD cosD : ℚ → ℚ} {pol : ExecutionPolicy}
    {sizes : List Nat} :
    ∀ (k : Nat) (st : TrigBuffers),
      (iterateState (trigTrialFunc sqrtD sinD cosD pol sizes) k st).vec = st.vec := by
  intro k
  induction k with
  | zero => intro st; rfl
  | succ n ih =>
    intro st
    have h1 : iterateState (trigTrialFunc sqrtD sinD cosD pol sizes) (n + 1) st =
        iterateState (trigTrialFunc sqrtD sinD cosD pol sizes) n
          ((trigTrialFunc sqrtD sinD cosD pol sizes st).2) := rfl
    rw [h1, ih]
    rfl

/-- Any number of invocations of the measured dot-product lambda leaves the
captured buffers entirely unchanged. -/
theorem dot_iterate_state {pol : ExecutionPolicy} {sizes : List Nat} :
    ∀ (k : Nat) (st : DotBuffers), iterateState (dotTrialFunc pol sizes) k st = st := by
  intro k
  induction k with
  | zero => intro st; rfl
  | succ n ih =>
    intro st
    have h1 : iterateState (dotTrialFunc pol sizes) (n + 1) st =
        iterateState (dotTrialFunc pol sizes) n ((dotTrialFunc pol sizes st).2) := rfl
    rw [h1]
    exact ih st

/-- C10: the trigonometric trial writes only the output buffer and leaves the
input vector unchanged after every number of invocations, in particular after
the full timed trial; the dot-product trial modifies neither captured vector;
so every timed invocation within one trial observes identical input data. -/
theorem inputs_not_modified (sqrtD sinD cosD : ℚ → ℚ) (pol : ExecutionPolicy)
    (sizes : List Nat) (title : String) (times : List ℚ) (st : TrigBuffers)
    (dst : DotBuffers) :
    (∀ k : Nat,
      (iterateState (trigTrialFunc sqrtD sinD cosD pol sizes) k st).vec = st.vec) ∧
      ((RunAndMeasure title (trigTrialFunc sqrtD sinD cosD pol sizes) times st).2).vec
        = st.vec ∧
      (∀ k : Nat, iterateState (dotTrialFunc pol sizes) k dst = dst) ∧
      (RunAndMeasure title (dotTrialFunc pol sizes) times dst).2 = dst := by
  refine ⟨fun k => trig_iterate_vec k st, ?_, fun k => dot_iterate_state k dst, ?_⟩
  · rw [RunAndMeasure_state]
    exact trig_iterate_vec 6 st
  · rw [RunAndMeasure_state]
    exact dot_iterate_state 6 dst

/-- The digit loop of atoi returns its accumulator 0 on a digit-free list. -/
theorem atoiLoop_no_digit (cs : List Char) (h : ∀ c ∈ cs, c.isDigit = false) :
    atoiLoop cs 0 = 0 := by
  cases cs with
  | nil => rfl
  | cons c cs2 => simp [atoiLoop, h c (List.mem_cons_self c cs2)]

/-- atoi of a string with no digit character at all is 0. -/
theorem atoi_no_digit (s : String) (h : ∀ c ∈ s.data, c.isDigit = false) :
    atoi s = 0 := by
  have hsub : ∀ c ∈ s.data.dropWhile isSpaceChar, c.isDigit = false := by
    intro c hc
    exact h c (List.dropWhile_subset isSpaceChar hc)
  unfold atoi
  split
  · next cs heq =>
      have hcs : ∀ c ∈ cs, c.isDigit = false := by
        intro c hc
        exact hsub c (heq ▸ List.mem_cons_of_mem _ hc)
      rw [atoiLoop_no_digit cs hcs, neg_zero]
  · next cs heq =>
      have hcs : ∀ c ∈ cs, c.isDigit = false := by
        intro c hc
        exact hsub c (heq ▸ List.mem_cons_of_mem _ hc)
      exact atoiLoop_no_digit cs hcs
  · next => exact atoiLoop_no_digit _ hsub

/-- C6: every run of main exits with code 0; with no arguments the size is
6000000 and the step is 0; the trigonometric test runs exactly when the step
is 0 or 2 and the dot-product test exactly when the step is 0 or 3; and a
fully non-numeric argument parses to the numeric value 0 rather than any
diagnosed failure. -/
theorem main_behavior (args : List String) (s : String)
    (h : ∀ c ∈ s.data, c.isDigit = false) :
    (mainRun args).exitCode = 0 ∧
      (mainRun []).vecSize = 6000000 ∧
      (mainRun []).step = 0 ∧
      ((mainRun args).ranTrig = true ↔
        ((mainRun args).step = 0 ∨ (mainRun args).step = 2)) ∧
      ((mainRun args).ranDot = true ↔
        ((mainRun args).step = 0 ∨ (mainRun args).step = 3)) ∧
      atoi s = 0 := by
  refine ⟨rfl, rfl, rfl, ?_, ?_, atoi_no_digit s h⟩
  · simp [mainRun]
  · simp [mainRun]

/-- Witness for C6 at concrete arguments and a concrete non-numeric string. -/
theorem main_behavior_witness :
    (mainRun ["abc", "2"]).exitCode = 0 ∧
      (mainRun []).vecSize = 6000000 ∧
      (mainRun []).step = 0 ∧
      ((mainRun ["abc", "2"]).ranTrig = true ↔
        ((mainRun ["abc", "2"]).step = 0 ∨ (mainRun ["abc", "2"]).step = 2)) ∧
      ((mainRun ["abc", "2"]).ranDot = true ↔
        ((mainRun ["abc", "2"]).step = 0 ∨ (mainRun ["abc", "2"]).step = 3)) ∧
      atoi "abc" = 0 :=
  main_behavior ["abc", "2"] "abc" (by decide)

end IntelParSTL
